import Mathlib

/-!
Verification of the core of `yaspi` (yet another python slurm interface),
a shallow embedding of `src/yaspi.py`.

Strings are modelled as `List Char` (Python `str`); the rule dictionaries as
association lists `List (String × Value)` where `Value` covers the two value
shapes the source stores (strings and ints, stringified by `str` at
substitution time); the filesystem as a map from resolved path to file
content, `FS := String → Option String`; fallible code returns
`Except String`.
-/

/-- Rule values: the dictionaries in `Yaspi.generate_scripts` store strings and
ints; `fill_template` applies `str` to the looked-up value. -/
inductive Value where
  | str : String → Value
  | nat : Nat → Value
deriving DecidableEq

/-- Python `str(token)` on a rule value. -/
def Value.toStr : Value → String
  | Value.str s => s
  | Value.nat n => toString n

/-- Python dict lookup `rules[key]` on the association list; `none` is the
`KeyError` case. -/
def lookupRule : List (String × Value) → String → Option Value
  | [], _ => none
  | (k, v) :: rest, key => if k = key then some v else lookupRule rest key

/-- The lazy tail of a regex match of `\{\{(.*?)\}\}`: given the characters
following an opening `{{`, find the nearest closing `}}` and return the
captured group together with the characters after the match.  Python `.` does
not match a newline, so a `'\n'` before any `}}` means the match attempt
fails. -/
def findClose : List Char → Option (List Char × List Char)
  | '}' :: '}' :: rest => some ([], rest)
  | '\n' :: _ => none
  | c :: rest =>
      match findClose rest with
      | some p => some (c :: p.1, p.2)
      | none => none
  | [] => none

/-- One step of `re.finditer(regex, row)`: the next match of `\{\{(.*?)\}\}`
scanning left to right.  Returns `(literal prefix, captured group, characters
after the match)`, or `none` when no further match exists.  On a failed match
attempt at an opening `{{` the engine advances a single position, exactly as
`re` does; the fuel is an upper bound on the number of advances, and
`s.length` always suffices. -/
def nextMatchF : Nat → List Char → Option (List Char × List Char × List Char)
  | 0, _ => none
  | fuel + 1, s =>
      match s with
      | '{' :: '{' :: rest =>
          match findClose rest with
          | some (g, after) => some ([], g, after)
          | none =>
              match nextMatchF fuel ('{' :: rest) with
              | some x => some ('{' :: x.1, x.2.1, x.2.2)
              | none => none
      | c :: rest =>
          match nextMatchF fuel rest with
          | some x => some (c :: x.1, x.2.1, x.2.2)
          | none => none
      | [] => none

/-- The next match of `\{\{(.*?)\}\}` in `s` (see `nextMatchF`). -/
def nextMatch (s : List Char) : Option (List Char × List Char × List Char) :=
  nextMatchF s.length s

/-- The full match list of `re.finditer` over one row, already in the
span-inverted form the source builds: the list of `(literal segment before the
match, captured group)` pairs, and the literal text after the last match.
When there is no match at all the row is returned whole as the trailing
literal (the `if edits:` short-circuit of the source).  Each match consumes at
least four characters, so `s.length` fuel always suffices. -/
def scanLineF : Nat → List Char → List (List Char × List Char) × List Char
  | 0, s => ([], s)
  | fuel + 1, s =>
      match nextMatch s with
      | none => ([], s)
      | some (lit, g, after) =>
          let r := scanLineF fuel after
          ((lit, g) :: r.1, r.2)

/-- Span-inverted match structure of one row (see `scanLineF`). -/
def scanLine (s : List Char) : List (List Char × List Char) × List Char :=
  scanLineF s.length s

/-- The interleaving loop of `fill_template`: each literal segment is emitted
followed by `str(rules[key])` for its match; a missing key is the `KeyError`,
carrying the offending name. -/
def substitute (rules : List (String × Value)) :
    List (List Char × List Char) → Except String (List Char)
  | [] => Except.ok []
  | (seg, g) :: ps =>
      match lookupRule rules (String.mk g) with
      | none => Except.error (String.mk g)
      | some v =>
          match substitute rules ps with
          | Except.error k => Except.error k
          | Except.ok t => Except.ok (seg ++ (Value.toStr v).data ++ t)

/-- Processing of a single row of the template by `fill_template`. -/
def renderLine (rules : List (String × Value)) (row : List Char) :
    Except String (List Char) :=
  match substitute rules (scanLine row).1 with
  | Except.error k => Except.error k
  | Except.ok t => Except.ok (t ++ (scanLine row).2)

/-- The characters Python `str.splitlines` treats as line boundaries:
newline, carriage return, vertical tab, form feed, the file/group/record
separators, next line, and the line/paragraph separators. -/
def isLineBoundary (c : Char) : Bool :=
  c = '\n' || c = '\r' || c = '\x0b' || c = '\x0c' ||
  c = '\x1c' || c = '\x1d' || c = '\x1e' || c = '\x85' ||
  c = '\u2028' || c = '\u2029'

/-- Python `str.splitlines`, written as a single pass: `acc` is the current
(reversed) line, and `prevCR` remembers that the previous character was a
carriage return, so that a directly following `'\n'` is skipped — `"\r\n"` is
a single boundary.  `"".splitlines() = []`, `"a\n".splitlines() = ["a"]`,
`"a\n\n".splitlines() = ["a", ""]`, `"a\r\nb".splitlines() = ["a", "b"]`. -/
def splitlinesAux (prevCR : Bool) (acc : List Char) : List Char → List (List Char)
  | [] => if acc.isEmpty then [] else [acc.reverse]
  | c :: rest =>
      if prevCR ∧ c = '\n' then splitlinesAux false acc rest
      else if isLineBoundary c then
        acc.reverse :: splitlinesAux (decide (c = '\r')) [] rest
      else splitlinesAux false (c :: acc) rest

/-- Python `text.splitlines()`. -/
def splitlines (s : List Char) : List (List Char) := splitlinesAux false [] s

/-- The row loop of `fill_template`: rows are rendered in order and the first
`KeyError` aborts the whole call. -/
def fillLines (rules : List (String × Value)) :
    List (List Char) → Except String (List (List Char))
  | [] => Except.ok []
  | row :: rest =>
      match renderLine rules row with
      | Except.error k => Except.error k
      | Except.ok r =>
          match fillLines rules rest with
          | Except.error k => Except.error k
          | Except.ok rs => Except.ok (r :: rs)

/-- `Yaspi.fill_template` (src/yaspi.py lines 122-148) applied to the text of
the template file: split into lines, substitute every `\{\{(.*?)\}\}` match
per line, rejoin with `"\n"`. -/
def fill_template (rules : List (String × Value)) (text : List Char) :
    Except String (List Char) :=
  match fillLines rules (splitlines text) with
  | Except.error k => Except.error k
  | Except.ok rows => Except.ok (List.intercalate (['\n'] : List Char) rows)

/-- Reassembling a scanned row: each literal segment followed by the match it
preceded, then the trailing literal.  `reassemble (scanLine s).1 (scanLine
s).2 = s` states that the span inversion loses no literal text. -/
def reassemble : List (List Char × List Char) → List Char → List Char
  | [], fin => fin
  | (seg, g) :: ps, fin =>
      seg ++ '{' :: '{' :: (g ++ '}' :: '}' :: reassemble ps fin)

/-- The placeholder names referenced by one row. -/
def keysOfLine (row : List Char) : List String :=
  (scanLine row).1.map (fun p => String.mk p.2)

example : scanLine ("a{{x}}b{{y}}c").data =
    ([("a".data, "x".data), ("b".data, "y".data)], "c".data) := by decide

/-!
Log-path derivation: `Yaspi.get_log_paths` (src/yaspi.py lines 96-110).

The filesystem is modelled as a map from resolved absolute path to file
content, `FS := String → Option String`, with `none` meaning the path does
not exist.  `Path.exists`, `Path.unlink` and `Path.touch` on a (possibly
relative) path act on the file at its resolved location, so the embedding
keys every operation by `resolve p`, where `resolve` abstracts
`Path.resolve` (an arbitrary function of the path string).  The
`parent.mkdir` call has no effect on any file content and is not modelled.
-/

/-- The filesystem: resolved path to file content; `none` = no such file. -/
def FS : Type := String → Option String

/-- `Path.exists()`. -/
def FS.pexists (fs : FS) (p : String) : Bool := (fs p).isSome

/-- `Path.unlink()`. -/
def FS.unlink (fs : FS) (p : String) : FS :=
  fun q => if q = p then none else fs q

/-- `Path.touch()`: creates the file empty when absent, leaves the content
alone when present (only the timestamp changes). -/
def FS.touch (fs : FS) (p : String) : FS :=
  fun q => if q = p then some ((fs p).getD "") else fs q

/-- Python `f-string` formatting `f"\x7bslurm_id:04d\x7d"`: the decimal digits
zero-padded on the left to width 4. -/
def pad4 (n : Nat) : String :=
  String.mk (List.replicate (4 - (toString n).length) '0') ++ toString n

/-- Python `str.replace` specialised to the fixed pattern `"%4a"`: every
non-overlapping occurrence, left to right, is replaced by `rep`. -/
def replace4a (rep : List Char) : List Char → List Char
  | '%' :: '4' :: 'a' :: rest => rep ++ replace4a rep rest
  | c :: rest => c :: replace4a rep rest
  | [] => []

/-- The candidate watched-log path for one task:
`str(log_path).replace("%4a", f"\x7bslurm_id:04d\x7d")`. -/
def pathOf (logPath : String) (slurmId : Nat) : String :=
  String.mk (replace4a (pad4 slurmId).data logPath.data)

/-- One iteration of the `get_log_paths` loop: build the candidate path,
delete it when `refresh_logs` is set and it exists, create it empty when it
does not exist, and record its resolved form. -/
def logStep (resolve : String → String) (logPath : String) (refresh : Bool)
    (slurmId : Nat) (fs : FS) : String × FS :=
  let key := resolve (pathOf logPath slurmId)
  let fs1 := if refresh && fs.pexists key then fs.unlink key else fs
  let fs2 := if !(fs1.pexists key) then fs1.touch key else fs1
  (key, fs2)

/-- The `for idx in range(job_array_size)` loop of `get_log_paths`, iterating
`slurm_id = idx + 1` over the next `k` task indices starting at `slurmId`. -/
def getLogPathsAux (resolve : String → String) (logPath : String)
    (refresh : Bool) : Nat → Nat → FS → List String × FS
  | _, 0, fs => ([], fs)
  | slurmId, k + 1, fs =>
      let s := logStep resolve logPath refresh slurmId fs
      let r := getLogPathsAux resolve logPath refresh (slurmId + 1) k s.2
      (s.1 :: r.1, r.2)

/-- `Yaspi.get_log_paths` (src/yaspi.py lines 96-110): the watched-log paths
for task indices `1 .. arraySize`, together with the filesystem after the
call. -/
def get_log_paths (resolve : String → String) (logPath : String)
    (arraySize : Nat) (refresh : Bool) (fs : FS) : List String × FS :=
  getLogPathsAux resolve logPath refresh 1 arraySize fs

/-- The resolved candidate paths for the next `k` task indices starting at
`slurmId`; `get_log_paths` returns exactly this sequence. -/
def logKeys (resolve : String → String) (logPath : String) :
    Nat → Nat → List String
  | _, 0 => []
  | slurmId, k + 1 =>
      resolve (pathOf logPath slurmId) ::
        logKeys resolve logPath (slurmId + 1) k

example : pad4 7 = "0007" := by decide

example :
    (get_log_paths id "logs/%4a-log.txt" 3 false (fun _ => none)).1 =
      ["logs/0001-log.txt", "logs/0002-log.txt", "logs/0003-log.txt"] := by
  decide

/-!
Script-set generation: `Yaspi.generate_scripts` (src/yaspi.py lines 34-94).

`pathlib`'s `/` on clean path strings is string concatenation with a single
separator, and `str((Path(td) / rel).relative_to(td))` is `rel` back, so
destination paths are `pathJoin gen_script_dir rel`.  Reading a template file
is abstracted as `readFile : String → Option String`; `none` is an unreadable
file (`IOError`).  The `chmod(0o755)` call and the write itself are
represented by the returned `(role, destination path, rendered text)`
entries, in the dict-insertion order the source iterates.
-/

/-- `str(Path(a) / b)` for clean path strings. -/
def pathJoin (a b : String) : String := a ++ "/" ++ b

/-- The job specification held by a `Yaspi` instance (its `__init__`
arguments).  `gpus_per_task` is `Option Nat` because the constructor accepts
`None` as well as an int, and the source tests it for truthiness. -/
structure Yaspi where
  cmd : String
  log_dir : String
  recipe : String
  job_name : String
  partition : String
  env_setup : Option String
  refresh_logs : Bool
  template_dir : String
  cpus_per_task : Nat
  gpus_per_task : Option Nat
  gen_script_dir : String
  job_array_size : Nat

/-- The default `env_setup` the ray recipe substitutes when the caller passed
`None`. -/
def defaultRayEnvSetup : String :=
  "export PYTHONPATH=\"${BASE}\":$PYTHONPATH\n" ++
  "export PATH=\"${HOME}/local/anaconda3/condabin/:$PATH\"\n" ++
  "source ~/local/anaconda3/etc/profile.d/conda.sh\n" ++
  "conda activate pt37"

/-- The effective `env_setup` after the ray branch's `if self.env_setup is
None` default substitution. -/
def rayEnvSetup (y : Yaspi) : String :=
  match y.env_setup with
  | none => defaultRayEnvSetup
  | some s => s

/-- The (role, template path relative to the template root) entries of the
ray recipe, in dict-insertion order. -/
def rayTemplatePaths : List (String × String) :=
  [("master", "ray/ray-master.sh"),
   ("sbatch", "ray/ray-sbatch.sh"),
   ("head-node", "ray/start-ray-head-node.sh"),
   ("worker-node", "ray/start-ray-worker-node.sh")]

/-- `self.log_path = str(Path(self.log_dir) / self.job_name / "%4a-log.txt")`. -/
def rayLogPath (y : Yaspi) : String :=
  pathJoin (pathJoin y.log_dir y.job_name) "%4a-log.txt"

/-- The destination of a generated script:
`gen_dir / Path(template_path).relative_to(self.template_dir)`. -/
def destPath (y : Yaspi) (rel : String) : String :=
  pathJoin y.gen_script_dir rel

/-- The `rules["master"]` dict of the ray recipe. -/
def masterRules (y : Yaspi) : List (String × Value) :=
  [("nfs_update_secs", Value.nat 1),
   ("ray_sbatch_path",
    Value.str (pathJoin y.gen_script_dir "ray/ray-sbatch.sh"))]

/-- The unconditional part of the `rules["sbatch"]` dict of the ray recipe. -/
def sbatchRulesBase (y : Yaspi) : List (String × Value) :=
  [("cmd", Value.str y.cmd),
   ("log_path", Value.str (rayLogPath y)),
   ("job_name", Value.str y.job_name),
   ("partition", Value.str y.partition),
   ("env_setup", Value.str (rayEnvSetup y)),
   ("array", Value.str ("1-" ++ toString y.job_array_size)),
   ("cpus_per_task", Value.nat y.cpus_per_task),
   ("approx_ray_init_time_in_secs", Value.nat 10),
   ("head_init_script",
    Value.str (pathJoin y.gen_script_dir "ray/start-ray-head-node.sh")),
   ("worker_init_script",
    Value.str (pathJoin y.gen_script_dir "ray/start-ray-worker-node.sh"))]

/-- `resource_str = f"SBATCH --gres=gpu:\x7bself.gpus_per_task\x7d"`. -/
def sbatchResources (n : Nat) : String := "SBATCH --gres=gpu:" ++ toString n

/-- The `rules["sbatch"]` dict: the resource entry is added only when
`self.gpus_per_task` is truthy (neither `None` nor `0`). -/
def sbatchRules (y : Yaspi) : List (String × Value) :=
  match y.gpus_per_task with
  | some n =>
      if n != 0 then
        sbatchRulesBase y ++
          [("sbatch_resources", Value.str (sbatchResources n))]
      else sbatchRulesBase y
  | none => sbatchRulesBase y

/-- The rule dict of the ray recipe for each role. -/
def rayRules (y : Yaspi) (role : String) : List (String × Value) :=
  if role = "master" then masterRules y
  else if role = "sbatch" then sbatchRules y
  else [("env_setup", Value.str (rayEnvSetup y))]

/-- One iteration of the generation loop: read the template at
`template_dir / rel`, render it with the role's rules, and record
`(role, destination path, rendered text)`. -/
def renderRole (y : Yaspi) (readFile : String → Option String)
    (role rel : String) : Except String (String × String × List Char) :=
  match readFile (pathJoin y.template_dir rel) with
  | none => Except.error ("unreadable template: " ++ pathJoin y.template_dir rel)
  | some text =>
      match fill_template (rayRules y role) text.data with
      | Except.error k => Except.error k
      | Except.ok out => Except.ok (role, destPath y rel, out)

/-- The generation loop over the recipe's roles, in order; the first failure
aborts the run. -/
def renderRoles (y : Yaspi) (readFile : String → Option String) :
    List (String × String) → Except String (List (String × String × List Char))
  | [] => Except.ok []
  | (role, rel) :: rest =>
      match renderRole y readFile role rel with
      | Except.error e => Except.error e
      | Except.ok entry =>
          match renderRoles y readFile rest with
          | Except.error e => Except.error e
          | Except.ok entries => Except.ok (entry :: entries)

/-- `Yaspi.generate_scripts` (src/yaspi.py lines 34-94): the ray recipe
renders and writes its four scripts; any other recipe name raises
`ValueError(f"template: \x7bself.recipe\x7d unrecognised")` before any rule
is built or any template is read. -/
def generate_scripts (y : Yaspi) (readFile : String → Option String) :
    Except String (List (String × String × List Char)) :=
  if y.recipe = "ray" then renderRoles y readFile rayTemplatePaths
  else Except.error ("template: " ++ y.recipe ++ " unrecognised")

/-- A concrete job specification (the argparse defaults of `main`), used by
the concrete instantiations below. -/
def yaspiEx : Yaspi :=
  { cmd := "echo \"hello\""
    log_dir := "data/slurm-logs"
    recipe := "ray"
    job_name := "yaspi-test"
    partition := "gpu"
    env_setup := none
    refresh_logs := false
    template_dir := "templates"
    cpus_per_task := 5
    gpus_per_task := some 1
    gen_script_dir := "data/slurm-gen-scripts"
    job_array_size := 2 }

example :
    lookupRule (masterRules yaspiEx) "ray_sbatch_path" =
      some (Value.str "data/slurm-gen-scripts/ray/ray-sbatch.sh") := by decide

example : lookupRule (sbatchRules yaspiEx) "sbatch_resources" =
    some (Value.str "SBATCH --gres=gpu:1") := by decide

/-!
Lemmas about the renderer.
-/

theorem findClose_concat (s : List Char) :
    ∀ g rest, findClose s = some (g, rest) → s = g ++ '}' :: '}' :: rest := by
  induction s using findClose.induct with
  | case1 rest => intro g r h; simp [findClose] at h; simp [h.1, h.2]
  | case2 rest => intro g r h; simp [findClose] at h
  | case3 c rest h1 h2 p hp ih =>
    intro g r h
    rw [findClose.eq_def] at h
    split at h
    · rename_i rest2 heq
      exact absurd heq (by intro hh; injection hh with ha hb; exact h1 _ ha hb)
    · rename_i heq
      exact absurd heq (by intro hh; injection hh with ha hb; exact h2 ha)
    · rename_i c2 rest2 hx1 hx2 heq
      injection heq with ha hb
      subst ha; subst hb
      rw [hp] at h
      injection h with h3
      injection h3 with h4 h5
      subst h4; subst h5
      simp [ih p.1 p.2 hp]
    · simp at h
  | case4 c rest h1 h2 hnone =>
    intro g r h
    rw [findClose.eq_def] at h
    split at h
    · rename_i rest2 heq
      exact absurd heq (by intro hh; injection hh with ha hb; exact h1 _ ha hb)
    · rename_i heq
      exact absurd heq (by intro hh; injection hh with ha hb; exact h2 ha)
    · rename_i c2 rest2 hx1 hx2 heq
      injection heq with ha hb
      subst ha; subst hb
      rw [hnone] at h
      simp at h
    · simp at h
  | case5 => intro g r h; simp [findClose] at h

theorem nextMatchF_concat (fuel : Nat) (s : List Char) :
    ∀ lit g after, nextMatchF fuel s = some (lit, g, after) →
      s = lit ++ '{' :: '{' :: (g ++ '}' :: '}' :: after) := by
  induction fuel, s using nextMatchF.induct with
  | case1 s => intro lit g after h; simp [nextMatchF] at h
  | case2 fuel rest g2 after2 hfc =>
    intro lit g after h
    simp only [nextMatchF, hfc] at h
    injection h with h1
    injection h1 with ha hb
    injection hb with hb1 hb2
    subst ha; subst hb1; subst hb2
    simp [findClose_concat rest g2 after2 hfc]
  | case3 fuel rest hfc x hnm ih =>
    intro lit g after h
    simp only [nextMatchF, hfc, hnm] at h
    injection h with h1
    injection h1 with ha hb
    injection hb with hb1 hb2
    subst ha; subst hb1; subst hb2
    have := ih x.1 x.2.1 x.2.2 (by rw [hnm])
    simp [List.cons_append, ← this]
  | case4 fuel rest hfc hnm =>
    intro lit g after h
    simp only [nextMatchF, hfc, hnm] at h
    exact Option.noConfusion h
  | case5 fuel c rest hne x hnm ih =>
    intro lit g after h
    simp only [nextMatchF, hnm] at h
    injection h with h1
    injection h1 with ha hb
    injection hb with hb1 hb2
    subst ha; subst hb1; subst hb2
    have := ih x.1 x.2.1 x.2.2 (by rw [hnm])
    simp [List.cons_append, ← this]
  | case6 fuel c rest hne hnm =>
    intro lit g after h
    simp only [nextMatchF, hnm] at h
    exact Option.noConfusion h
  | case7 fuel => intro lit g after h; simp [nextMatchF] at h

theorem nextMatch_concat (s lit g after : List Char)
    (h : nextMatch s = some (lit, g, after)) :
    s = lit ++ '{' :: '{' :: (g ++ '}' :: '}' :: after) :=
  nextMatchF_concat s.length s lit g after h

theorem scanLineF_reassemble :
    ∀ fuel s, s.length ≤ fuel →
      reassemble (scanLineF fuel s).1 (scanLineF fuel s).2 = s := by
  intro fuel
  induction fuel with
  | zero =>
    intro s hs
    have : s = [] := List.length_eq_zero.mp (Nat.le_zero.mp hs)
    subst this
    rfl
  | succ fuel ih =>
    intro s hs
    cases hnm : nextMatch s with
    | none => simp only [scanLineF, hnm]; rfl
    | some m =>
      obtain ⟨lit, g, after⟩ := m
      have hcat := nextMatch_concat s lit g after hnm
      have hlen : after.length ≤ fuel := by
        have := congrArg List.length hcat
        simp [List.length_append] at this
        omega
      have hre := ih after hlen
      simp only [scanLineF, hnm, reassemble]
      rw [hre, hcat]

theorem scanLine_reassemble (s : List Char) :
    reassemble (scanLine s).1 (scanLine s).2 = s :=
  scanLineF_reassemble s.length s (Nat.le_refl _)

theorem scanLine_no_match (s : List Char) (h : (scanLine s).1 = []) :
    (scanLine s).2 = s := by
  have := scanLine_reassemble s
  rw [h] at this
  exact this

theorem substitute_error_sound (rules : List (String × Value)) :
    ∀ ps k, substitute rules ps = Except.error k →
      lookupRule rules k = none ∧ ∃ p ∈ ps, String.mk p.2 = k := by
  intro ps
  induction ps with
  | nil => intro k h; exact Except.noConfusion h
  | cons p rest ih =>
    intro k h
    obtain ⟨seg, g⟩ := p
    simp only [substitute] at h
    cases hl : lookupRule rules (String.mk g) with
    | none =>
      rw [hl] at h
      injection h with h1
      subst h1
      exact ⟨hl, (seg, g), by simp, rfl⟩
    | some v =>
      rw [hl] at h
      cases hs : substitute rules rest with
      | error k2 =>
        rw [hs] at h
        injection h with h1
        subst h1
        obtain ⟨ha, p2, hp2, hk⟩ := ih k2 hs
        exact ⟨ha, p2, List.mem_cons_of_mem _ hp2, hk⟩
      | ok t => rw [hs] at h; exact Except.noConfusion h

theorem substitute_error_complete (rules : List (String × Value)) :
    ∀ ps, (∃ p ∈ ps, lookupRule rules (String.mk p.2) = none) →
      ∃ k, substitute rules ps = Except.error k := by
  intro ps
  induction ps with
  | nil => intro h; obtain ⟨p, hp, _⟩ := h; exact absurd hp (by simp)
  | cons q rest ih =>
    intro h
    obtain ⟨seg, g⟩ := q
    cases hl : lookupRule rules (String.mk g) with
    | none => exact ⟨String.mk g, by simp [substitute, hl]⟩
    | some v =>
      obtain ⟨p, hp, hpl⟩ := h
      have hrest : ∃ p ∈ rest, lookupRule rules (String.mk p.2) = none := by
        rcases List.mem_cons.mp hp with heq | hmem
        · subst heq; rw [hpl] at hl; exact Option.noConfusion hl
        · exact ⟨p, hmem, hpl⟩
      obtain ⟨k, hk⟩ := ih hrest
      exact ⟨k, by simp [substitute, hl, hk]⟩

theorem substitute_value_emitted (rules : List (String × Value)) :
    ∀ ps seg g t, (seg, g) ∈ ps → substitute rules ps = Except.ok t →
      ∃ v pre post, lookupRule rules (String.mk g) = some v ∧
        t = pre ++ (Value.toStr v).data ++ post := by
  intro ps
  induction ps with
  | nil => intro seg g t hm _; exact absurd hm (by simp)
  | cons q rest ih =>
    intro seg g t hm h
    obtain ⟨seg2, g2⟩ := q
    simp only [substitute] at h
    cases hl : lookupRule rules (String.mk g2) with
    | none => rw [hl] at h; exact Except.noConfusion h
    | some v =>
      rw [hl] at h
      cases hs : substitute rules rest with
      | error k => rw [hs] at h; exact Except.noConfusion h
      | ok t2 =>
        rw [hs] at h
        injection h with h1
        subst h1
        rcases List.mem_cons.mp hm with heq | hmem
        · injection heq with he1 he2
          subst he1; subst he2
          exact ⟨v, hl ▸ ⟨seg, t2, rfl, rfl⟩⟩
        · obtain ⟨v2, pre, post, hv2, ht2⟩ := ih seg g t2 hmem hs
          exact ⟨v2, seg2 ++ (Value.toStr v).data ++ pre, post, hv2, by
            simp [ht2]⟩

theorem renderLine_error_iff (rules : List (String × Value)) (row : List Char)
    (k : String) :
    renderLine rules row = Except.error k ↔
      substitute rules (scanLine row).1 = Except.error k := by
  unfold renderLine
  cases h : substitute rules (scanLine row).1 <;> simp

theorem renderLine_id (rules : List (String × Value)) (row : List Char)
    (h : (scanLine row).1 = []) : renderLine rules row = Except.ok row := by
  unfold renderLine
  rw [h]
  simp [substitute, scanLine_no_match row h]

theorem fillLines_id (rules : List (String × Value)) :
    ∀ lines, (∀ row ∈ lines, (scanLine row).1 = []) →
      fillLines rules lines = Except.ok lines := by
  intro lines
  induction lines with
  | nil => intro _; rfl
  | cons row rest ih =>
    intro h
    simp only [fillLines]
    rw [renderLine_id rules row (h row (by simp)),
        ih (fun r hr => h r (List.mem_cons_of_mem _ hr))]

theorem fillLines_length (rules : List (String × Value)) :
    ∀ lines out, fillLines rules lines = Except.ok out →
      out.length = lines.length := by
  intro lines
  induction lines with
  | nil =>
    intro out h
    injection h with h1
    subst h1
    rfl
  | cons row rest ih =>
    intro out h
    simp only [fillLines] at h
    cases hr : renderLine rules row with
    | error k => rw [hr] at h; exact Except.noConfusion h
    | ok r =>
      rw [hr] at h
      cases hs : fillLines rules rest with
      | error k => rw [hs] at h; exact Except.noConfusion h
      | ok rs =>
        rw [hs] at h
        injection h with h1
        subst h1
        simp [ih rs hs]

theorem fillLines_error_sound (rules : List (String × Value)) :
    ∀ lines k, fillLines rules lines = Except.error k →
      lookupRule rules k = none ∧ ∃ row ∈ lines, k ∈ keysOfLine row := by
  intro lines
  induction lines with
  | nil => intro k h; exact Except.noConfusion h
  | cons row rest ih =>
    intro k h
    simp only [fillLines] at h
    cases hr : renderLine rules row with
    | error k2 =>
      rw [hr] at h
      injection h with h1
      subst h1
      have hsub := (renderLine_error_iff rules row k2).mp hr
      obtain ⟨hnone, p, hp, hk⟩ := substitute_error_sound rules _ k2 hsub
      exact ⟨hnone, row, by simp, hk ▸ List.mem_map_of_mem _ hp⟩
    | ok r =>
      rw [hr] at h
      cases hs : fillLines rules rest with
      | error k2 =>
        rw [hs] at h
        injection h with h1
        subst h1
        obtain ⟨hnone, row2, hrow2, hk⟩ := ih k2 hs
        exact ⟨hnone, row2, List.mem_cons_of_mem _ hrow2, hk⟩
      | ok rs => rw [hs] at h; exact Except.noConfusion h

theorem fillLines_error_complete (rules : List (String × Value)) :
    ∀ lines, (∃ row ∈ lines, ∃ k ∈ keysOfLine row, lookupRule rules k = none) →
      ∃ k, fillLines rules lines = Except.error k := by
  intro lines
  induction lines with
  | nil => intro h; obtain ⟨row, hrow, _⟩ := h; exact absurd hrow (by simp)
  | cons row rest ih =>
    intro h
    cases hr : renderLine rules row with
    | error k2 => exact ⟨k2, by simp [fillLines, hr]⟩
    | ok r =>
      have hrest : ∃ row ∈ rest, ∃ k ∈ keysOfLine row,
          lookupRule rules k = none := by
        obtain ⟨row2, hrow2, k, hk, hknone⟩ := h
        rcases List.mem_cons.mp hrow2 with heq | hmem
        · obtain ⟨p, hp, hpk⟩ := List.mem_map.mp (heq ▸ hk)
          have := substitute_error_complete rules (scanLine row).1
            ⟨p, hp, by rw [hpk]; exact hknone⟩
          obtain ⟨k2, hk2⟩ := this
          rw [(renderLine_error_iff rules row k2).mpr hk2] at hr
          exact Except.noConfusion hr
        · exact ⟨row2, hmem, k, hk, hknone⟩
      obtain ⟨k, hk⟩ := ih hrest
      exact ⟨k, by simp [fillLines, hr, hk]⟩

theorem fill_template_error_iff (rules : List (String × Value))
    (text : List Char) (k : String) :
    fill_template rules text = Except.error k ↔
      fillLines rules (splitlines text) = Except.error k := by
  unfold fill_template
  cases h : fillLines rules (splitlines text) <;> simp

theorem splitlinesAux_cons (p : Bool) (acc : List Char) (c : Char)
    (t : List Char) :
    splitlinesAux p acc (c :: t) =
      if p ∧ c = '\n' then splitlinesAux false acc t
      else if isLineBoundary c then
        acc.reverse :: splitlinesAux (decide (c = '\r')) [] t
      else splitlinesAux false (c :: acc) t := rfl

theorem splitlinesAux_append_newline :
    ∀ text (p : Bool) (acc : List Char), text ≠ [] →
      (∀ c, text.getLast? = some c → isLineBoundary c = false) →
      splitlinesAux p acc (text ++ ['\n']) = splitlinesAux p acc text := by
  intro text
  induction text with
  | nil => intro p acc h _; exact absurd rfl h
  | cons c rest ih =>
    intro p acc _ hlast
    cases rest with
    | nil =>
      have hc : isLineBoundary c = false := hlast c (by simp)
      have hcn : ¬(c = '\n') := by
        intro hx
        subst hx
        simp [isLineBoundary] at hc
      have hn : isLineBoundary '\n' = true := rfl
      simp [splitlinesAux_cons, splitlinesAux, hc, hcn, hn]
    | cons r rs =>
      have hlast2 : ∀ c2, (r :: rs).getLast? = some c2 →
          isLineBoundary c2 = false :=
        fun c2 hc2 => hlast c2 (by rwa [List.getLast?_cons_cons])
      rw [List.cons_append, splitlinesAux_cons, splitlinesAux_cons]
      by_cases h1 : p ∧ c = '\n'
      · rw [if_pos h1, if_pos h1, ih false acc (by simp) hlast2]
      · rw [if_neg h1, if_neg h1]
        by_cases h2 : isLineBoundary c = true
        · rw [if_pos h2, if_pos h2,
            ih (decide (c = '\r')) [] (by simp) hlast2]
        · rw [if_neg h2, if_neg h2, ih false (c :: acc) (by simp) hlast2]

theorem splitlines_append_newline (text : List Char) (h : text ≠ [])
    (hlast : ∀ c, text.getLast? = some c → isLineBoundary c = false) :
    splitlines (text ++ ['\n']) = splitlines text :=
  splitlinesAux_append_newline text false [] h hlast

/-!
Lemmas about the log-path deriver.
-/

theorem logStep_fst (resolve : String → String) (logPath : String)
    (refresh : Bool) (slurmId : Nat) (fs : FS) :
    (logStep resolve logPath refresh slurmId fs).1 =
      resolve (pathOf logPath slurmId) := rfl

theorem logStep_snd (resolve : String → String) (logPath : String)
    (refresh : Bool) (slurmId : Nat) (fs : FS) (q : String) :
    ((logStep resolve logPath refresh slurmId fs).2) q =
      if q = resolve (pathOf logPath slurmId) ∧ (refresh = true ∨ fs q = none)
      then some "" else fs q := by
  unfold logStep
  by_cases hq : q = resolve (pathOf logPath slurmId) <;>
    cases refresh <;>
    cases hfk : fs (resolve (pathOf logPath slurmId)) <;>
    cases hfs : fs q <;>
    simp_all [FS.pexists, FS.unlink, FS.touch]

theorem getLogPathsAux_fst (resolve : String → String) (logPath : String)
    (refresh : Bool) :
    ∀ k slurmId fs,
      (getLogPathsAux resolve logPath refresh slurmId k fs).1 =
        logKeys resolve logPath slurmId k := by
  intro k
  induction k with
  | zero => intro slurmId fs; rfl
  | succ k ih =>
    intro slurmId fs
    simp only [getLogPathsAux, logKeys]
    rw [ih]
    rfl

theorem getLogPathsAux_snd (resolve : String → String) (logPath : String)
    (refresh : Bool) :
    ∀ k slurmId fs q,
      ((getLogPathsAux resolve logPath refresh slurmId k fs).2) q =
        if q ∈ logKeys resolve logPath slurmId k ∧ (refresh = true ∨ fs q = none)
        then some "" else fs q := by
  intro k
  induction k with
  | zero => intro slurmId fs q; simp [getLogPathsAux, logKeys]
  | succ k ih =>
    intro slurmId fs q
    simp only [getLogPathsAux, logKeys]
    rw [ih]
    rw [logStep_snd]
    by_cases hmem : q ∈ logKeys resolve logPath (slurmId + 1) k <;>
      by_cases hK : q = resolve (pathOf logPath slurmId) <;>
      cases refresh <;>
      cases hfs : fs q <;>
      simp_all [List.mem_cons]

theorem logKeys_length (resolve : String → String) (logPath : String) :
    ∀ k slurmId, (logKeys resolve logPath slurmId k).length = k := by
  intro k
  induction k with
  | zero => intro slurmId; rfl
  | succ k ih => intro slurmId; simp [logKeys, ih]

theorem logKeys_get (resolve : String → String) (logPath : String) :
    ∀ k slurmId i, i < k →
      (logKeys resolve logPath slurmId k)[i]? =
        some (resolve (pathOf logPath (slurmId + i))) := by
  intro k
  induction k with
  | zero => intro slurmId i h; omega
  | succ k ih =>
    intro slurmId i h
    cases i with
    | zero => simp [logKeys]
    | succ i =>
      simp only [logKeys, List.getElem?_cons_succ]
      rw [ih (slurmId + 1) i (by omega)]
      have : slurmId + 1 + i = slurmId + (i + 1) := by omega
      rw [this]

/-!
Lemmas about rule dictionaries and script generation.
-/

theorem lookupRule_append (l1 l2 : List (String × Value)) (k : String) :
    lookupRule (l1 ++ l2) k =
      match lookupRule l1 k with
      | some v => some v
      | none => lookupRule l2 k := by
  induction l1 with
  | nil => rfl
  | cons p rest ih =>
    obtain ⟨k2, v⟩ := p
    by_cases hk : k2 = k <;> simp [lookupRule, hk, ih]

theorem sbatchRulesBase_no_resources (y : Yaspi) :
    lookupRule (sbatchRulesBase y) "sbatch_resources" = none := rfl

theorem renderRole_ok (y : Yaspi) (readFile : String → Option String)
    (role rel : String) (e : String × String × List Char)
    (h : renderRole y readFile role rel = Except.ok e) :
    ∃ out, e = (role, destPath y rel, out) := by
  unfold renderRole at h
  cases hr : readFile (pathJoin y.template_dir rel) with
  | none => rw [hr] at h; exact Except.noConfusion h
  | some text =>
    rw [hr] at h
    dsimp only at h
    cases hf : fill_template (rayRules y role) text.data with
    | error k => rw [hf] at h; exact Except.noConfusion h
    | ok out =>
      rw [hf] at h
      injection h with h1
      exact ⟨out, h1.symm⟩

theorem renderRoles_mem (y : Yaspi) (readFile : String → Option String) :
    ∀ entries outs, renderRoles y readFile entries = Except.ok outs →
      ∀ p ∈ entries, ∃ c, (p.1, destPath y p.2, c) ∈ outs := by
  intro entries
  induction entries with
  | nil => intro outs h p hp; exact absurd hp (by simp)
  | cons q rest ih =>
    intro outs h p hp
    obtain ⟨role, rel⟩ := q
    simp only [renderRoles] at h
    cases h1 : renderRole y readFile role rel with
    | error e => rw [h1] at h; exact Except.noConfusion h
    | ok entry =>
      rw [h1] at h
      cases h2 : renderRoles y readFile rest with
      | error e => rw [h2] at h; exact Except.noConfusion h
      | ok entries2 =>
        rw [h2] at h
        injection h with h3
        subst h3
        rcases List.mem_cons.mp hp with heq | hmem
        · obtain ⟨out, hout⟩ := renderRole_ok y readFile role rel entry h1
          subst heq
          exact ⟨out, by simp [hout]⟩
        · obtain ⟨c, hc⟩ := ih entries2 h2 p hmem
          exact ⟨c, List.mem_cons_of_mem _ hc⟩

theorem renderLine_value_emitted (rules : List (String × Value))
    (row seg g out : List Char) (hm : (seg, g) ∈ (scanLine row).1)
    (h : renderLine rules row = Except.ok out) :
    ∃ v pre post, lookupRule rules (String.mk g) = some v ∧
      out = pre ++ (Value.toStr v).data ++ post := by
  unfold renderLine at h
  cases hs : substitute rules (scanLine row).1 with
  | error k => rw [hs] at h; exact Except.noConfusion h
  | ok t =>
    rw [hs] at h
    injection h with h1
    subst h1
    obtain ⟨v, pre, post, hv, ht⟩ :=
      substitute_value_emitted rules _ seg g t hm hs
    exact ⟨v, pre, post ++ (scanLine row).2, hv, by simp [ht]⟩

example :
    fill_template [("x", Value.str "1"), ("y", Value.str "22")]
      ("a{{x}}b{{y}}c").data = Except.ok ("a1b22c").data := rfl

example : fill_template [] ("a\n\n").data = Except.ok ("a\n").data := rfl

example : splitlines ("a\r\nb").data = [("a").data, ("b").data] := by decide

example : splitlines ("a\x0b\n").data = [("a").data, []] := by decide

example : fill_template [] ("a\x0b").data = Except.ok ("a").data := rfl

example : fill_template [] ("a\x0b\n").data = Except.ok ("a\n").data := rfl

example : nextMatch (("\x7b\x7ba").data ++ '\n' :: ("{{b}}c").data) =
    some (("\x7b\x7ba").data ++ ['\n'], "b".data, "c".data) := rfl

/-!
The claims.
-/

/-- C1: template rendering substitutes every placeholder of a line with the
stringified rule value for its name and preserves all literal text between
and around the matches exactly.  Part one: the span inversion reassembles to
the original row, so no literal character is lost or altered.  Part two:
every match of a successfully rendered row emits the stringified looked-up
value into the output.  Part three: the concrete line of the spec with rules
x to "1" and y to "22" renders to "a1b22c". -/
theorem claim_C1 :
    (∀ row : List Char, reassemble (scanLine row).1 (scanLine row).2 = row)
    ∧ (∀ rules row seg g out, (seg, g) ∈ (scanLine row).1 →
        renderLine rules row = Except.ok out →
        ∃ v pre post, lookupRule rules (String.mk g) = some v ∧
          out = pre ++ (Value.toStr v).data ++ post)
    ∧ fill_template [("x", Value.str "1"), ("y", Value.str "22")]
        ("a{{x}}b{{y}}c").data = Except.ok ("a1b22c").data :=
  ⟨scanLine_reassemble,
   fun rules row seg g out hm h =>
     renderLine_value_emitted rules row seg g out hm h,
   rfl⟩

theorem claim_C1_witness :
    reassemble (scanLine ("ab{{x}}c").data).1 (scanLine ("ab{{x}}c").data).2 =
      ("ab{{x}}c").data :=
  claim_C1.1 ("ab{{x}}c").data

/-- C2: rendering a template whose lines reference a placeholder name absent
from the rules fails with an error identifying an offending (missing,
referenced) name, and produces no rendered output at all. -/
theorem claim_C2 (rules : List (String × Value)) (text : List Char)
    (h : ∃ row ∈ splitlines text, ∃ k ∈ keysOfLine row,
      lookupRule rules k = none) :
    ∃ k, fill_template rules text = Except.error k
      ∧ lookupRule rules k = none
      ∧ (∃ row ∈ splitlines text, k ∈ keysOfLine row)
      ∧ ∀ out, fill_template rules text ≠ Except.ok out := by
  obtain ⟨k, hk⟩ := fillLines_error_complete rules (splitlines text) h
  obtain ⟨hnone, hrow⟩ := fillLines_error_sound rules (splitlines text) k hk
  have herr := (fill_template_error_iff rules text k).mpr hk
  refine ⟨k, herr, hnone, hrow, ?_⟩
  intro out hout
  rw [herr] at hout
  exact Except.noConfusion hout

theorem claim_C2_witness :
    ∃ k, fill_template [("x", Value.str "1")] ("a{{z}}b").data =
        Except.error k
      ∧ lookupRule [("x", Value.str "1")] k = none
      ∧ (∃ row ∈ splitlines ("a{{z}}b").data, k ∈ keysOfLine row)
      ∧ ∀ out, fill_template [("x", Value.str "1")] ("a{{z}}b").data ≠
          Except.ok out :=
  claim_C2 [("x", Value.str "1")] ("a{{z}}b").data (by decide)

/-- C3: for array size N at least 1, log-path derivation returns exactly N
paths, in increasing task-index order, the i-th (0-based i) obtained by
substituting the zero-padded width-4 index i+1 for every "%4a" in the
template and resolving; after the call every returned path exists, and one
that did not exist before is an empty file; for array size 3 the example
template yields the 0001/0002/0003 log names. -/
theorem claim_C3 (resolve : String → String) (logPath : String) (N : Nat)
    (refresh : Bool) (fs : FS) (h : 1 ≤ N) :
    ((get_log_paths resolve logPath N refresh fs).1 =
      logKeys resolve logPath 1 N)
    ∧ (get_log_paths resolve logPath N refresh fs).1.length = N
    ∧ (∀ i, i < N → ((get_log_paths resolve logPath N refresh fs).1)[i]? =
        some (resolve (pathOf logPath (1 + i))))
    ∧ (∀ p ∈ (get_log_paths resolve logPath N refresh fs).1,
        ∃ c, ((get_log_paths resolve logPath N refresh fs).2) p = some c)
    ∧ (∀ p ∈ (get_log_paths resolve logPath N refresh fs).1,
        fs p = none →
          ((get_log_paths resolve logPath N refresh fs).2) p = some "")
    ∧ (get_log_paths id "logs/%4a-log.txt" 3 false (fun _ => none)).1 =
        ["logs/0001-log.txt", "logs/0002-log.txt", "logs/0003-log.txt"] := by
  have hfst : (get_log_paths resolve logPath N refresh fs).1 =
      logKeys resolve logPath 1 N := getLogPathsAux_fst resolve logPath refresh N 1 fs
  refine ⟨hfst, ?_, ?_, ?_, ?_, by decide⟩
  · rw [hfst, logKeys_length]
  · intro i hi
    rw [hfst, logKeys_get resolve logPath N 1 i hi]
  · intro p hp
    rw [hfst] at hp
    have := getLogPathsAux_snd resolve logPath refresh N 1 fs p
    rw [get_log_paths, this]
    split
    · exact ⟨"", rfl⟩
    · rename_i hcond
      cases hfp : fs p with
      | none => exact absurd ⟨hp, Or.inr hfp⟩ hcond
      | some c => exact ⟨c, rfl⟩
  · intro p hp hfp
    rw [hfst] at hp
    have := getLogPathsAux_snd resolve logPath refresh N 1 fs p
    rw [get_log_paths, this, if_pos ⟨hp, Or.inr hfp⟩]

theorem claim_C3_witness :
    (get_log_paths id "logs/%4a-log.txt" 3 false (fun _ => none)).1 =
      logKeys id "logs/%4a-log.txt" 1 3 :=
  (claim_C3 id "logs/%4a-log.txt" 3 false (fun _ => none) (by decide)).1

/-- C4: the destination path recorded for the sbatch script equals the string
stored under ray_sbatch_path in the master rules, the generated script set
records exactly that destination for the sbatch role, and whenever a master
template row references the ray_sbatch_path placeholder the rendered output
contains that destination path verbatim. -/
theorem claim_C4 (y : Yaspi) :
    (lookupRule (masterRules y) "ray_sbatch_path" =
      some (Value.str (destPath y "ray/ray-sbatch.sh")))
    ∧ (∀ readFile outs, generate_scripts y readFile = Except.ok outs →
        ∃ c, ("sbatch", destPath y "ray/ray-sbatch.sh", c) ∈ outs)
    ∧ (∀ row out seg, (seg, ("ray_sbatch_path").data) ∈ (scanLine row).1 →
        renderLine (masterRules y) row = Except.ok out →
        ∃ pre post,
          out = pre ++ (destPath y "ray/ray-sbatch.sh").data ++ post) := by
  have hlook : lookupRule (masterRules y) "ray_sbatch_path" =
      some (Value.str (destPath y "ray/ray-sbatch.sh")) := rfl
  refine ⟨hlook, ?_, ?_⟩
  · intro readFile outs h
    unfold generate_scripts at h
    by_cases hrec : y.recipe = "ray"
    · rw [if_pos hrec] at h
      have := renderRoles_mem y readFile rayTemplatePaths outs h
        ("sbatch", "ray/ray-sbatch.sh") (by simp [rayTemplatePaths])
      simpa using this
    · rw [if_neg hrec] at h; exact Except.noConfusion h
  · intro row out seg hm hr
    obtain ⟨v, pre, post, hv, hout⟩ :=
      renderLine_value_emitted (masterRules y) row seg _ out hm hr
    have hv2 : v = Value.str (destPath y "ray/ray-sbatch.sh") := by
      have h2 : String.mk (("ray_sbatch_path").data) = "ray_sbatch_path" := rfl
      rw [h2, hlook] at hv
      injection hv with hv3
      exact hv3.symm
    subst hv2
    exact ⟨pre, post, hout⟩

theorem claim_C4_witness :
    lookupRule (masterRules yaspiEx) "ray_sbatch_path" =
      some (Value.str (destPath yaspiEx "ray/ray-sbatch.sh")) :=
  (claim_C4 yaspiEx).1

/-- C5: with refresh set, every derived path refers to an empty file after
derivation, and a single step on a path holding a pre-existing (possibly
non-empty) file deletes it and recreates it empty. -/
theorem claim_C5 (resolve : String → String) (logPath : String) (N : Nat)
    (fs : FS) (refresh : Bool) (h : refresh = true) :
    (∀ p ∈ (get_log_paths resolve logPath N refresh fs).1,
      ((get_log_paths resolve logPath N refresh fs).2) p = some "")
    ∧ ∀ slurmId c, fs (resolve (pathOf logPath slurmId)) = some c →
        ((logStep resolve logPath refresh slurmId fs).2)
          (resolve (pathOf logPath slurmId)) = some "" := by
  subst h
  constructor
  · intro p hp
    rw [get_log_paths, getLogPathsAux_fst] at hp
    rw [get_log_paths, getLogPathsAux_snd, if_pos ⟨hp, Or.inl rfl⟩]
  · intro slurmId c hc
    rw [logStep_snd, if_pos ⟨rfl, Or.inl rfl⟩]

theorem claim_C5_witness :
    ((get_log_paths id "l/%4a-log.txt" 1 true
        (fun q => if q = "l/0001-log.txt" then some "old" else none)).2)
      "l/0001-log.txt" = some "" :=
  (claim_C5 id "l/%4a-log.txt" 1
      (fun q => if q = "l/0001-log.txt" then some "old" else none)
      true rfl).1 "l/0001-log.txt" (by decide)

/-- C6: with refresh unset, log-path derivation is idempotent: running it a
second time on the filesystem produced by the first run returns the same path
sequence and leaves the filesystem (hence every file content) unchanged. -/
theorem claim_C6 (resolve : String → String) (logPath : String) (N : Nat)
    (fs : FS) (refresh : Bool) (h : refresh = false) :
    ((get_log_paths resolve logPath N refresh
        ((get_log_paths resolve logPath N refresh fs).2)).1 =
      (get_log_paths resolve logPath N refresh fs).1)
    ∧ (get_log_paths resolve logPath N refresh
        ((get_log_paths resolve logPath N refresh fs).2)).2 =
      (get_log_paths resolve logPath N refresh fs).2 := by
  subst h
  constructor
  · rw [get_log_paths, get_log_paths, getLogPathsAux_fst, getLogPathsAux_fst]
  · funext q
    rw [get_log_paths, get_log_paths, getLogPathsAux_snd, getLogPathsAux_snd]
    by_cases hmem : q ∈ logKeys resolve logPath 1 N <;>
      cases hfq : fs q <;> simp [hmem, hfq]

theorem claim_C6_witness :
    (get_log_paths id "l/%4a.txt" 2 false
        ((get_log_paths id "l/%4a.txt" 2 false (fun _ => none)).2)).1 =
      (get_log_paths id "l/%4a.txt" 2 false (fun _ => none)).1 :=
  (claim_C6 id "l/%4a.txt" 2 (fun _ => none) false rfl).1

/-- C7: rendering is the identity on placeholder-free input: a row with no
regex match is returned verbatim, and a template none of whose rows match is
rendered to itself line for line. -/
theorem claim_C7 (rules : List (String × Value)) :
    (∀ row, (scanLine row).1 = [] → renderLine rules row = Except.ok row)
    ∧ (∀ lines, (∀ row ∈ lines, (scanLine row).1 = []) →
        fillLines rules lines = Except.ok lines) :=
  ⟨fun row h => renderLine_id rules row h,
   fun lines h => fillLines_id rules lines h⟩

theorem claim_C7_witness :
    renderLine [] ("hello world").data = Except.ok ("hello world").data :=
  (claim_C7 []).1 ("hello world").data (by decide)

/-- C8: an unrecognized recipe name makes script generation fail immediately
with the unsupported-recipe error, independently of the template files; no
rule is built, nothing is rendered, nothing is written. -/
theorem claim_C8 (y : Yaspi) (readFile : String → Option String)
    (h : y.recipe ≠ "ray") :
    generate_scripts y readFile =
      Except.error ("template: " ++ y.recipe ++ " unrecognised")
    ∧ ∀ readFile2 : String → Option String,
        generate_scripts y readFile = generate_scripts y readFile2 := by
  constructor
  · unfold generate_scripts
    rw [if_neg h]
  · intro readFile2
    unfold generate_scripts
    rw [if_neg h, if_neg h]

theorem claim_C8_witness :
    generate_scripts { yaspiEx with recipe := "slurm" } (fun _ => none) =
      Except.error "template: slurm unrecognised" :=
  (claim_C8 { yaspiEx with recipe := "slurm" } (fun _ => none)
    (by decide)).1

/-- C9: the sbatch rules carry the extra resource-request entry exactly when
the per-task GPU count is truthy: a positive count n yields the entry whose
value textually contains n, while a count of zero or an unspecified count
leaves the key entirely absent. -/
theorem claim_C9 (y : Yaspi) :
    (∀ n, y.gpus_per_task = some n → n ≠ 0 →
      lookupRule (sbatchRules y) "sbatch_resources" =
          some (Value.str (sbatchResources n))
        ∧ ∃ pre post, (sbatchResources n).data =
            pre ++ (toString n).data ++ post)
    ∧ ((y.gpus_per_task = none ∨ y.gpus_per_task = some 0) →
        lookupRule (sbatchRules y) "sbatch_resources" = none) := by
  constructor
  · intro n hg hn
    constructor
    · unfold sbatchRules
      rw [hg]
      dsimp only
      rw [if_pos (by simpa using hn)]
      rw [lookupRule_append, sbatchRulesBase_no_resources]
      rfl
    · exact ⟨("SBATCH --gres=gpu:").data, [], by simp [sbatchResources]⟩
  · intro hg
    rcases hg with hn | h0
    · unfold sbatchRules
      rw [hn]
      dsimp only
      exact sbatchRulesBase_no_resources y
    · unfold sbatchRules
      rw [h0]
      dsimp only
      rw [if_neg (by decide)]
      exact sbatchRulesBase_no_resources y

theorem claim_C9_witness :
    lookupRule (sbatchRules yaspiEx) "sbatch_resources" =
        some (Value.str (sbatchResources 1))
    ∧ lookupRule (sbatchRules { yaspiEx with gpus_per_task := none })
        "sbatch_resources" = none :=
  ⟨((claim_C9 yaspiEx).1 1 rfl (by decide)).1,
   (claim_C9 { yaspiEx with gpus_per_task := none }).2 (Or.inl rfl)⟩

/-- C10 counterexample: rendering the placeholder-free template text with two
final newlines produces output that ends with a newline character, and whose
split line count (1) differs from the template's split line count (2) — the
claim that the output never ends with a newline and always has exactly as
many lines as the template is false as stated. -/
theorem claim_C10_counterexample :
    fill_template [] ("a\n\n").data = Except.ok ("a\n").data
    ∧ ("a\n").data.getLast? = some '\n'
    ∧ (splitlines ("a\n\n").data).length = 2
    ∧ (splitlines ("a\n").data).length = 1 :=
  ⟨rfl, rfl, rfl, rfl⟩

/-- C10 amended: the rendered line sequence has exactly as many entries as
the template's split lines, and a single final newline is dropped: template
text whose last character is not a line-boundary character (newline, carriage
return, vertical tab, form feed, the separator characters, next line, or the
line and paragraph separators) renders identically with or without one final
newline appended.  (The joined output can still end with a newline, and its
own split line count can differ, when the template ends in a line-boundary
character or substituted values contain newlines.) -/
theorem claim_C10_amended (rules : List (String × Value)) :
    (∀ text out, fillLines rules (splitlines text) = Except.ok out →
      out.length = (splitlines text).length)
    ∧ (∀ text : List Char,
        (∀ c, text.getLast? = some c → isLineBoundary c = false) →
        fill_template rules (text ++ ['\n']) = fill_template rules text) := by
  constructor
  · intro text out h
    exact fillLines_length rules _ out h
  · intro text hlast
    by_cases htext : text = []
    · subst htext
      simp only [List.nil_append]
      have h1 : splitlines (['\n'] : List Char) = [[]] := rfl
      have h2 : splitlines ([] : List Char) = [] := rfl
      unfold fill_template
      rw [h1, h2]
      have h3 : fillLines rules [[]] = Except.ok [[]] :=
        fillLines_id rules [[]] (by
          intro row hr
          simp at hr
          subst hr
          rfl)
      rw [h3]
      rfl
    · unfold fill_template
      rw [splitlines_append_newline text htext hlast]

theorem claim_C10_amended_witness :
    fill_template [] (("ab").data ++ ['\n']) = fill_template [] ("ab").data :=
  (claim_C10_amended []).2 ("ab").data (by
    intro c hc
    rw [show (("ab").data.getLast?) = some 'b' from rfl] at hc
    injection hc with h
    rw [← h]
    rfl)
